import Mathlib

/-!
Shallow embedding of the `asura_db` storage driver (`src/main.go`).

The driver maps (collection, resource) pairs onto files `root/collection/resource.json`
inside a directory tree. We model the filesystem as finite association data:
a list of (path, content) pairs for regular files, and a list of paths for
directories. A path is a list of path components (`filepath.Join` of clean,
separator-free components is concatenation, and Go's string concatenation
`path + ".json"` appends to the last component).

Go functions modelled here, with their source locations in `src/main.go`:
  * `stat`        (lines 123-129)
  * `Driver.Read` (lines 64-86)
  * `Driver.Delete` (lines 88-108)
  * `Driver.Write` (lines 146-183)
  * `Driver.ReadAll` (lines 185-213)
The per-collection mutexes serialize operations but do not change the
sequential semantics modelled here; the logger is side observation only.
-/

set_option autoImplicit false

deriving instance DecidableEq for Except

namespace AsuraDb

/-- A filesystem path, as a list of path components. -/
abbrev Path := List String

/-- Errors the driver can surface. Constructors record the Go error site:
`invalidArg` carries the `fmt.Errorf` message for empty names; `notFound`
is an `os` ENOENT (from `os.Stat` or `os.ReadFile`); `notDirectory` is
ENOTDIR from `os.ReadDir`; `isDirectory` is EISDIR from `os.ReadFile`;
`deleteNotFound` is Delete's "unable to find file or directory named %v";
`unmarshalErr` is any `json.Unmarshal` failure (type or syntax error);
the four fault constructors are injected I/O or encoding failures. -/
inductive DbError where
  | invalidArg (msg : String)
  | notFound
  | notDirectory
  | isDirectory
  | deleteNotFound (path : Path)
  | unmarshalErr
  | mkdirFault
  | marshalFault
  | writeFault
  | renameFault
deriving DecidableEq

/-- First-match lookup in a file table (the semantics of a path-indexed map). -/
def findFile : List (Path × String) → Path → Option String
  | [], _ => none
  | e :: rest, p => if e.1 = p then some e.2 else findFile rest p

/-- Remove every entry whose path satisfies `bad`. -/
def dropFiles (bad : Path → Bool) : List (Path × String) → List (Path × String)
  | [] => []
  | e :: rest => if bad e.1 then dropFiles bad rest else e :: dropFiles bad rest

/-- Remove every directory path satisfying `bad`. -/
def dropDirs (bad : Path → Bool) : List Path → List Path
  | [] => []
  | p :: rest => if bad p then dropDirs bad rest else p :: dropDirs bad rest

/-- Membership of a path in a directory table. -/
def memPath : List Path → Path → Bool
  | [], _ => false
  | q :: rest, p => if q = p then true else memPath rest p

/-- `isUnder q p` holds when `p` is a prefix of `q`: the path `q` is `p`
itself or lies inside the directory `p`. -/
def isUnder : Path → Path → Bool
  | _, [] => true
  | [], _ :: _ => false
  | a :: as, b :: bs => if b = a then isUnder as bs else false

/-- The filesystem state: regular files with their byte content (as a
string), and the set of existing directories. -/
structure FS where
  files : List (Path × String)
  dirs : List Path
deriving DecidableEq

/-- Content of the regular file at `p`, if one exists. -/
def FS.file (fs : FS) (p : Path) : Option String := findFile fs.files p

/-- Whether a directory exists at `p`. -/
def FS.isDir (fs : FS) (p : Path) : Bool := memPath fs.dirs p

/-- Create or truncate the regular file at `p` with content `c`
(`os.WriteFile`'s effect). -/
def FS.setFile (fs : FS) (p : Path) (c : String) : FS :=
  { fs with files := (p, c) :: dropFiles (fun q => q = p) fs.files }

/-- Remove the regular file at `p` if present. -/
def FS.removeFile (fs : FS) (p : Path) : FS :=
  { fs with files := dropFiles (fun q => q = p) fs.files }

/-- `os.RemoveAll p`: remove the path `p` and everything under it, files and
directories alike; succeeds silently when nothing exists there. -/
def FS.removeAll (fs : FS) (p : Path) : FS :=
  { files := dropFiles (fun q => isUnder q p) fs.files,
    dirs := dropDirs (fun q => isUnder q p) fs.dirs }

/-- `os.MkdirAll p`: create the directory `p` together with all ancestors. -/
def FS.mkdirAll (fs : FS) (p : Path) : FS :=
  { fs with dirs := p.inits ++ fs.dirs }

/-- Result of `os.Stat`: the path names a directory, a regular file, or
does not exist. -/
inductive StatRes where
  | dir
  | file
  | notExist
deriving DecidableEq

/-- `os.Stat` on the modelled filesystem. -/
def osStat (fs : FS) (p : Path) : StatRes :=
  if fs.isDir p then .dir
  else if (fs.file p).isSome then .file
  else .notExist

/-- Append a string to the last component of a path: Go's string
concatenation `path + ext` on a joined path. -/
def addExt : Path → String → Path
  | [], ext => [ext]
  | [a], ext => [a ++ ext]
  | a :: b :: rest, ext => a :: addExt (b :: rest) ext

/-- The helper `stat` (src/main.go lines 123-129): `os.Stat(path)`, falling
back to `os.Stat(path + ".json")` when the bare path does not exist; the
error of the second call is surfaced when both are absent. -/
def stat (fs : FS) (p : Path) : Except DbError StatRes :=
  match osStat fs p with
  | .notExist =>
    match osStat fs (addExt p ".json") with
    | .notExist => .error .notFound
    | r => .ok r
  | r => .ok r

/-- `os.ReadFile`: full content of the regular file at `p`. -/
def osReadFile (fs : FS) (p : Path) : Except DbError String :=
  if fs.isDir p then .error .isDirectory
  else
    match fs.file p with
    | some c => .ok c
    | none => .error .notFound

/-! ## JSON values and `encoding/json` -/

mutual
/-- A serializable Go value, as the JSON value it marshals to. Object
fields keep Go struct declaration order, the order `json.Marshal` emits. -/
inductive Json where
  | null
  | bool (b : Bool)
  | num (n : Int)
  | str (s : String)
  | arr (elems : JsonArr)
  | obj (fields : JsonObj)

/-- A list of JSON array elements. -/
inductive JsonArr where
  | nil
  | cons (hd : Json) (tl : JsonArr)

/-- A list of JSON object fields (key, value). -/
inductive JsonObj where
  | nil
  | cons (key : String) (val : Json) (tl : JsonObj)
end

/-- A lowercase hex digit, as `encoding/json` emits in `\u00xx` escapes. -/
def hexDigit (n : Nat) : Char :=
  if n < 10 then Char.ofNat (48 + n) else Char.ofNat (87 + n)

/-- Escaping of one character inside a JSON string literal, as done by
`encoding/json` with its default HTML escaping (`<`, `>`, `&` become
`\u00xx`; control characters likewise except `\n`, `\r`, `\t`). -/
def escChar (c : Char) : String :=
  if c = '"' then "\\\""
  else if c = '\\' then "\\\\"
  else if c = '\n' then "\\n"
  else if c = '\r' then "\\r"
  else if c = '\t' then "\\t"
  else if c = '<' then "\\u003c"
  else if c = '>' then "\\u003e"
  else if c = '&' then "\\u0026"
  else if c.toNat < 32 then
    "\\u00" ++ String.mk [hexDigit (c.toNat / 16), hexDigit (c.toNat % 16)]
  else if c.toNat = 0x2028 then "\\u2028"
  else if c.toNat = 0x2029 then "\\u2029"
  else String.mk [c]

/-- A JSON string literal for `s`, quotes included. -/
def quoteString (s : String) : String :=
  "\"" ++ String.join (s.toList.map escChar) ++ "\""

/-- `lvl` tabs, the indentation `MarshalIndent(v, "", "\t")` puts before an
element nested `lvl` levels deep. -/
def tabs : Nat → String
  | 0 => ""
  | n + 1 => "\t" ++ tabs n

mutual
/-- `json.MarshalIndent(v, "", "\t")` at nesting level `lvl`: empty arrays
and objects stay compact; otherwise each element sits on its own line,
indented one level deeper, and the closing bracket returns to `lvl`. -/
def marshalVal : Json → Nat → String
  | .null, _ => "null"
  | .bool true, _ => "true"
  | .bool false, _ => "false"
  | .num n, _ => toString n
  | .str s, _ => quoteString s
  | .arr .nil, _ => "[]"
  | .arr (.cons x xs), lvl =>
    "[\n" ++ marshalArr (JsonArr.cons x xs) (lvl + 1) ++ "\n" ++ tabs lvl ++ "]"
  | .obj .nil, _ => "\x7b\x7d"
  | .obj (.cons k v fs), lvl =>
    "\x7b\n" ++ marshalObj (JsonObj.cons k v fs) (lvl + 1) ++ "\n" ++ tabs lvl ++ "\x7d"

/-- Array elements, one per line, comma-separated. -/
def marshalArr : JsonArr → Nat → String
  | .nil, _ => ""
  | .cons x .nil, lvl => tabs lvl ++ marshalVal x lvl
  | .cons x (.cons y ys), lvl =>
    tabs lvl ++ marshalVal x lvl ++ ",\n" ++ marshalArr (JsonArr.cons y ys) lvl

/-- Object fields, one per line, `"key": value`, comma-separated. -/
def marshalObj : JsonObj → Nat → String
  | .nil, _ => ""
  | .cons k v .nil, lvl => tabs lvl ++ quoteString k ++ ": " ++ marshalVal v lvl
  | .cons k v (.cons k2 v2 fs), lvl =>
    tabs lvl ++ quoteString k ++ ": " ++ marshalVal v lvl ++ ",\n" ++
      marshalObj (JsonObj.cons k2 v2 fs) lvl
end

/-- Top-level `json.MarshalIndent(v, "", "\t")`. -/
def marshalIndent (v : Json) : String := marshalVal v 0

/-- Skip JSON whitespace. -/
def skipWS : List Char → List Char
  | [] => []
  | c :: rest =>
    if c = ' ' ∨ c = '\t' ∨ c = '\n' ∨ c = '\r' then skipWS rest else c :: rest

/-- Value of a hex digit character, if it is one. -/
def hexVal (c : Char) : Option Nat :=
  if '0' ≤ c ∧ c ≤ '9' then some (c.toNat - 48)
  else if 'a' ≤ c ∧ c ≤ 'f' then some (c.toNat - 87)
  else if 'A' ≤ c ∧ c ≤ 'F' then some (c.toNat - 55)
  else none

/-- Parse the remainder of a JSON string literal after the opening quote:
returns the decoded characters and the input left after the closing quote,
or `none` on malformed input (unterminated literal, bad escape, raw
control character). -/
def parseLit : List Char → Option (List Char × List Char)
  | [] => none
  | '"' :: rest => some ([], rest)
  | '\\' :: rest =>
    match rest with
    | [] => none
    | 'u' :: a :: b :: c :: d :: rest2 =>
      match hexVal a, hexVal b, hexVal c, hexVal d with
      | some x, some y, some z, some w =>
        match parseLit rest2 with
        | some (cs, rem) => some (Char.ofNat (((x * 16 + y) * 16 + z) * 16 + w) :: cs, rem)
        | none => none
      | _, _, _, _ => none
    | e :: rest2 =>
      match
        (if e = '"' then some '"'
         else if e = '\\' then some '\\'
         else if e = '/' then some '/'
         else if e = 'n' then some '\n'
         else if e = 't' then some '\t'
         else if e = 'r' then some '\r'
         else if e = 'b' then some (Char.ofNat 8)
         else if e = 'f' then some (Char.ofNat 12)
         else none) with
      | some ch =>
        match parseLit rest2 with
        | some (cs, rem) => some (ch :: cs, rem)
        | none => none
      | none => none
  | c :: rest =>
    if c.toNat < 32 then none
    else
      match parseLit rest with
      | some (cs, rem) => some (c :: cs, rem)
      | none => none

/-- `json.Unmarshal(b, &v)` where `v` is a Go `string`: the payload must be
exactly one JSON string literal (surrounded by whitespace); any other JSON
value is a type error ("cannot unmarshal ... into Go value of type
string") and malformed input is a syntax error — both are `unmarshalErr`. -/
def unmarshalString (s : String) : Except DbError String :=
  match skipWS s.toList with
  | '"' :: rest =>
    match parseLit rest with
    | some (cs, rem) =>
      if skipWS rem = [] then .ok (String.mk cs) else .error .unmarshalErr
    | none => .error .unmarshalErr
  | _ => .error .unmarshalErr

/-! ## The driver operations

Each operation takes the driver's root directory `root` (the Go `d.dir`)
explicitly. Collection and resource names are single path components, as
`filepath.Join` treats clean separator-free names. `Faults` injects the
filesystem and encoder failures Go can surface (`os.MkdirAll`,
`json.MarshalIndent`, `os.WriteFile`, `os.Rename`); the pure model has no
spontaneous failure of its own for these calls. -/

/-- Which of Write's four fallible steps fail, modelling underlying
I/O or encoding errors (disk full, permission, unserializable value...). -/
structure Faults where
  mkdirFails : Bool
  marshalFails : Bool
  writeFails : Bool
  renameFails : Bool
deriving DecidableEq

/-- No injected failures. -/
def noFaults : Faults := ⟨false, false, false, false⟩

/-- `Driver.Read` (src/main.go lines 64-86). Go's signature is
`Read(collection, resource string, v string) error`: the destination `v`
is a plain string passed by value, so `json.Unmarshal(b, &v)` fills a
local copy that is discarded — the caller only ever observes the error,
which is why the model returns `Except DbError Unit`. -/
def Read (fs : FS) (root : Path) (collection resource : String) : Except DbError Unit :=
  if collection = "" then .error (.invalidArg "Missing collection - no place to save record!")
  else if resource = "" then .error (.invalidArg "Missing resource - unable to save record (no name)!")
  else
    let record := root ++ [collection, resource]
    match stat fs record with
    | .error e => .error e
    | .ok _ =>
      match osReadFile fs (addExt record ".json") with
      | .error e => .error e
      | .ok b =>
        match unmarshalString b with
        | .error e => .error e
        | .ok _ => .ok ()

/-- `Driver.Write` (src/main.go lines 146-183): validate names, ensure the
collection directory, encode with a trailing newline, write the bytes to
`resource.json.tmp`, and publish by renaming onto `resource.json`.
Returns the error result together with the filesystem it leaves behind. -/
def Write (f : Faults) (fs : FS) (root : Path) (collection resource : String)
    (v : Json) : Except DbError Unit × FS :=
  if collection = "" then
    (.error (.invalidArg "Missing collection - no place to save record!"), fs)
  else if resource = "" then
    (.error (.invalidArg "Missing resource - unable to save record (no name)!"), fs)
  else
    let dir := root ++ [collection]
    let fnlPath := dir ++ [resource ++ ".json"]
    let tmpPath := addExt fnlPath ".tmp"
    if f.mkdirFails then (.error .mkdirFault, fs)
    else
      let fs1 := fs.mkdirAll dir
      if f.marshalFails then (.error .marshalFault, fs1)
      else
        let b := marshalIndent v ++ "\n"
        if f.writeFails then (.error .writeFault, fs1)
        else
          let fs2 := fs1.setFile tmpPath b
          if f.renameFails then (.error .renameFault, fs2)
          else (.ok (), (fs2.removeFile tmpPath).setFile fnlPath b)

/-- `filepath.Join` of clean separator-free components: empty components
are dropped. -/
def joinPath : List String → Path
  | [] => []
  | s :: rest => if s = "" then joinPath rest else s :: joinPath rest

/-- `Driver.Delete` (src/main.go lines 88-108): no name validation; stat
the joined path (with `stat`'s `.json` fallback); a directory is removed
recursively, a regular file is removed as `path + ".json"`; otherwise the
"unable to find file or directory" error. `filepath.Join` drops empty
components, so an empty resource targets the collection directory and an
empty collection targets the root. -/
def Delete (fs : FS) (root : Path) (collection resource : String) :
    Except DbError Unit × FS :=
  let path := joinPath [collection, resource]
  let dir := root ++ path
  match stat fs dir with
  | .error _ => (.error (.deleteNotFound path), fs)
  | .ok .dir => (.ok (), fs.removeAll dir)
  | .ok .file => (.ok (), fs.removeAll (addExt dir ".json"))
  | .ok .notExist => (.ok (), fs)

/-- The names `os.ReadDir` returns: every entry (file or directory) lying
directly inside `dir`. -/
def childName (dir p : Path) : Option String :=
  if isUnder p dir = true ∧ p.length = dir.length + 1 then p.getLast? else none

/-- Directory listing of `dir` on the modelled filesystem. -/
def readDirNames (fs : FS) (dir : Path) : List String :=
  fs.files.filterMap (fun e => childName dir e.1) ++ fs.dirs.filterMap (childName dir)

/-- `os.ReadDir`: list the entries of a directory; ENOTDIR on a regular
file, ENOENT when nothing exists at `p`. -/
def osReadDir (fs : FS) (p : Path) : Except DbError (List String) :=
  if fs.isDir p then .ok (readDirNames fs p)
  else if (fs.file p).isSome then .error .notDirectory
  else .error .notFound

/-- ReadAll's loop over directory entries: read each file fully, aborting
on the first failure. -/
def readFiles (fs : FS) (dir : Path) : List String → Except DbError (List String)
  | [] => .ok []
  | n :: ns =>
    match osReadFile fs (dir ++ [n]) with
    | .error e => .error e
    | .ok b =>
      match readFiles fs dir ns with
      | .error e => .error e
      | .ok rest => .ok (b :: rest)

/-- `Driver.ReadAll` (src/main.go lines 185-213): validate the collection
name, `stat` the collection directory, list it, and return each entry's
raw bytes. -/
def ReadAll (fs : FS) (root : Path) (collection : String) :
    Except DbError (List String) :=
  if collection = "" then .error (.invalidArg "Missing collection - unable to read")
  else
    let dir := root ++ [collection]
    match stat fs dir with
    | .error e => .error e
    | .ok _ =>
      match osReadDir fs dir with
      | .error e => .error e
      | .ok names => readFiles fs dir names

/-! ## Helper lemmas about the filesystem model -/

theorem findFile_dropFiles (bad : Path → Bool) (l : List (Path × String)) (p : Path) :
    findFile (dropFiles bad l) p = if bad p then none else findFile l p := by
  induction l with
  | nil => simp [dropFiles, findFile]
  | cons e rest ih =>
    by_cases hb : bad e.1
    · by_cases hp : e.1 = p
      · subst hp
        simp [dropFiles, hb, ih]
      · simp [dropFiles, findFile, hb, hp, ih]
    · by_cases hp : e.1 = p
      · subst hp
        simp [dropFiles, findFile, hb, ih]
      · simp [dropFiles, findFile, hb, hp, ih]

theorem memPath_dropDirs (bad : Path → Bool) (l : List Path) (p : Path) :
    memPath (dropDirs bad l) p = if bad p then false else memPath l p := by
  induction l with
  | nil => simp [dropDirs, memPath]
  | cons q rest ih =>
    by_cases hb : bad q
    · by_cases hp : q = p
      · subst hp
        simp [dropDirs, hb, ih]
      · simp [dropDirs, memPath, hb, hp, ih]
    · by_cases hp : q = p
      · subst hp
        simp [dropDirs, memPath, hb, ih]
      · simp [dropDirs, memPath, hb, hp, ih]

theorem file_setFile_self (fs : FS) (p : Path) (c : String) :
    (fs.setFile p c).file p = some c := by
  simp [FS.setFile, FS.file, findFile]

theorem file_setFile_ne (fs : FS) (p q : Path) (c : String) (h : q ≠ p) :
    (fs.setFile p c).file q = fs.file q := by
  simp only [FS.setFile, FS.file, findFile]
  rw [if_neg (fun he => h he.symm), findFile_dropFiles]
  simp [h]

theorem file_removeFile_self (fs : FS) (p : Path) :
    (fs.removeFile p).file p = none := by
  simp [FS.removeFile, FS.file, findFile_dropFiles]

theorem file_removeFile_ne (fs : FS) (p q : Path) (h : q ≠ p) :
    (fs.removeFile p).file q = fs.file q := by
  simp [FS.removeFile, FS.file, findFile_dropFiles, h]

theorem file_mkdirAll (fs : FS) (p q : Path) :
    (fs.mkdirAll p).file q = fs.file q := rfl

theorem file_removeAll (fs : FS) (p q : Path) :
    (fs.removeAll p).file q = if isUnder q p then none else fs.file q := by
  simp [FS.removeAll, FS.file, findFile_dropFiles]

theorem isDir_removeAll (fs : FS) (p q : Path) :
    (fs.removeAll p).isDir q = if isUnder q p then false else fs.isDir q := by
  simp [FS.removeAll, FS.isDir, memPath_dropDirs]

theorem isUnder_refl (p : Path) : isUnder p p = true := by
  induction p with
  | nil => rfl
  | cons a rest ih => simp [isUnder, ih]

theorem isUnder_append (p q : Path) : isUnder (p ++ q) p = true := by
  induction p with
  | nil => cases q <;> rfl
  | cons a rest ih => simp [isUnder, ih]

theorem isUnder_concat_ne (xs : Path) (a b : String) (h : b ≠ a) :
    isUnder (xs ++ [a]) (xs ++ [b]) = false := by
  induction xs with
  | nil => simp [isUnder, h]
  | cons x rest ih => simp [isUnder, ih]

theorem addExt_concat (xs : Path) (y e : String) :
    addExt (xs ++ [y]) e = xs ++ [y ++ e] := by
  induction xs with
  | nil => rfl
  | cons a rest ih =>
    cases rest with
    | nil => rfl
    | cons b rest2 => simpa [addExt] using ih

theorem append_ne_self (s t : String) (ht : t ≠ "") : s ++ t ≠ s := by
  intro h
  have h2 := congrArg String.length h
  rw [String.length_append] at h2
  have h4 : t.data.length = 0 := by
    have : t.length = 0 := by omega
    exact this
  have h5 : t.data = [] := List.length_eq_zero.mp h4
  exact ht (by cases t; simp_all)

theorem findFile_mem (l : List (Path × String)) (p : Path) (b : String)
    (h : findFile l p = some b) : (p, b) ∈ l := by
  induction l with
  | nil => simp [findFile] at h
  | cons e rest ih =>
    obtain ⟨q, c⟩ := e
    by_cases hp : q = p
    · subst hp
      simp only [findFile, if_pos] at h
      cases h
      exact List.mem_cons_self _ _
    · simp only [findFile, hp, if_false] at h
      exact List.mem_cons_of_mem _ (ih h)

theorem childName_concat (dir : Path) (n : String) :
    childName dir (dir ++ [n]) = some n := by
  simp [childName, isUnder_append, List.getLast?_concat]

theorem concat_ne (xs : Path) (a b : String) (h : a ≠ b) : xs ++ [a] ≠ xs ++ [b] := by
  intro he
  exact h (by simpa using List.append_cancel_left he)

theorem pair_concat_ne (xs : Path) (c a b : String) (h : a ≠ b) :
    xs ++ [c, a] ≠ xs ++ [c, b] := by
  intro he
  exact h (by simpa using List.append_cancel_left he)

theorem append_left_ne (s t u : String) (h : t.length ≠ u.length) : s ++ t ≠ s ++ u := by
  intro he
  have h2 := congrArg String.length he
  rw [String.length_append, String.length_append] at h2
  omega

theorem addExt_tmp (root : Path) (c r : String) :
    addExt (root ++ [c] ++ [r ++ ".json"]) ".tmp" = root ++ [c, r ++ ".json.tmp"] := by
  rw [addExt_concat, String.append_assoc]
  simp

theorem addExt_record (root : Path) (c r : String) :
    addExt (root ++ [c, r]) ".json" = root ++ [c, r ++ ".json"] := by
  have h := addExt_concat (root ++ [c]) r ".json"
  simpa using h

/-! ## Concrete stores used as witnesses and failing inputs -/

/-- The reference payload shape: a flat object (cf. the `User` struct). -/
def zoroUser : Json := .obj (.cons "Name" (.str "Zoro") (.cons "Age" (.num 23) .nil))

/-- A freshly opened store: the root directory exists and is empty. -/
def emptyStore : FS := ⟨[], [["db"]]⟩

/-- A store holding one record `users/zoro`, whose stored JSON value is the
string `"z"` (the only value shape the Go `Read` can decode). -/
def oneRecordStore : FS :=
  ⟨[(["db", "users", "zoro.json"], "\"z\"\n")], [["db"], ["db", "users"]]⟩

/-- A store with two collections and three records, for frame reasoning. -/
def twoCollectionStore : FS :=
  ⟨[(["db", "users", "zoro.json"], "\"z\"\n"),
    (["db", "users", "benn.json"], "\"b\"\n"),
    (["db", "sites", "home.json"], "\"h\"\n")],
   [["db"], ["db", "users"], ["db", "sites"]]⟩

/-! ## The claims -/

/-- C1: the claim says that for every serializable value `v` and non-empty
names `c`, `r`, a successful `Write(c, r, v)` followed by `Read(c, r)`
yields to the caller a value deep-equal to `v`. The code cannot do this:
`Read` takes its destination as a plain `string` passed by value, so the
decoded value is dropped and only an error is returned; moreover
`json.Unmarshal` into a `string` destination rejects any non-string JSON.
At the failing input — the reference payload written to `users/zoro` on a
fresh store — the write succeeds and the read returns an unmarshal type
error, yielding no value. -/
theorem write_then_read_yields_no_value :
    (Write noFaults emptyStore ["db"] "users" "zoro" zoroUser).1 = .ok () ∧
    Read (Write noFaults emptyStore ["db"] "users" "zoro" zoroUser).2
      ["db"] "users" "zoro" = .error .unmarshalErr :=
  ⟨rfl, rfl⟩

/-- C4: the claim says `Read` succeeds both on the bare resource name and
on the name with the `.json` suffix already applied, with the same
content. The code stats either form, but then always reads
`record + ".json"`: with the suffixed name it reads `r.json.json`, which
does not exist. At the failing input — a store whose only record is
`users/zoro` with string content — the bare name succeeds and the
suffixed name fails with the file-not-found error. -/
theorem read_suffixed_name_fails :
    Read oneRecordStore ["db"] "users" "zoro" = .ok () ∧
    Read oneRecordStore ["db"] "users" "zoro.json" = .error .notFound :=
  ⟨rfl, rfl⟩

/-- C3 counterexample: the claim says every public operation rejects empty
names with an `InvalidArgument` error and leaves the filesystem
unchanged. `Delete` performs no such validation: called with empty
collection and resource on a one-record store it returns success, not an
`InvalidArgument` error, and wipes the store's root (the record file is
gone afterwards). -/
theorem delete_empty_names_not_rejected :
    (Delete oneRecordStore ["db"] "" "").1 = .ok () ∧
    (Delete oneRecordStore ["db"] "" "").2.file ["db", "users", "zoro.json"] = none ∧
    ¬ ∃ m, (Delete oneRecordStore ["db"] "" "").1 = .error (.invalidArg m) := by
  refine ⟨rfl, rfl, ?_⟩
  rintro ⟨m, h⟩
  exact Except.noConfusion h

/-- C3 (amended): `Write` and `Read` return the `InvalidArgument` errors
for an empty collection or resource name and leave the filesystem
unchanged, and `ReadAll` does so for an empty collection name; `Delete`
performs no emptiness validation — with both names empty it targets the
root directory itself and succeeds when the root exists. -/
theorem empty_name_validation :
    (∀ f fs root r v, Write f fs root "" r v =
      (.error (.invalidArg "Missing collection - no place to save record!"), fs)) ∧
    (∀ f fs root c v, c ≠ "" → Write f fs root c "" v =
      (.error (.invalidArg "Missing resource - unable to save record (no name)!"), fs)) ∧
    (∀ fs root r, Read fs root "" r =
      .error (.invalidArg "Missing collection - no place to save record!")) ∧
    (∀ fs root c, c ≠ "" → Read fs root c "" =
      .error (.invalidArg "Missing resource - unable to save record (no name)!")) ∧
    (∀ fs root, ReadAll fs root "" =
      .error (.invalidArg "Missing collection - unable to read")) ∧
    (∀ fs root, fs.isDir root = true → (Delete fs root "" "").1 = .ok ()) := by
  refine ⟨?_, ?_, ?_, ?_, ?_, ?_⟩
  · intro f fs root r v
    simp [Write]
  · intro f fs root c v hc
    simp [Write, hc]
  · intro fs root r
    simp [Read]
  · intro fs root c hc
    simp [Read, hc]
  · intro fs root
    simp [ReadAll]
  · intro fs root h
    simp [Delete, joinPath, stat, osStat, h]

/-- Witness for the amended C3 theorem at concrete inputs. -/
theorem empty_name_validation_witness :
    Write noFaults oneRecordStore ["db"] "users" "" zoroUser =
      (.error (.invalidArg "Missing resource - unable to save record (no name)!"),
       oneRecordStore) ∧
    Read oneRecordStore ["db"] "" "zoro" =
      .error (.invalidArg "Missing collection - no place to save record!") ∧
    (Delete oneRecordStore ["db"] "" "").1 = .ok () :=
  ⟨empty_name_validation.2.1 noFaults oneRecordStore ["db"] "users" zoroUser (by decide),
   empty_name_validation.2.2.1 oneRecordStore ["db"] "zoro",
   empty_name_validation.2.2.2.2.2 oneRecordStore ["db"] rfl⟩

/-- C2: whenever `Write` returns an error — name validation, directory
creation, encoding, temp-file write, or rename — the final file
`root/c/r.json` is left exactly as before the call: old content kept if
present, still absent otherwise. The temp file is the only file the
failed call may have touched. -/
theorem write_error_leaves_final_file (f : Faults) (fs : FS) (root : Path)
    (c r : String) (v : Json) (e : DbError)
    (h : (Write f fs root c r v).1 = .error e) :
    (Write f fs root c r v).2.file (root ++ [c, r ++ ".json"]) =
      fs.file (root ++ [c, r ++ ".json"]) := by
  by_cases hc : c = ""
  · simp [Write, hc]
  by_cases hr : r = ""
  · simp [Write, hc, hr]
  by_cases hm : f.mkdirFails
  · simp [Write, hc, hr, hm]
  by_cases hmar : f.marshalFails
  · simp [Write, hc, hr, hm, hmar, file_mkdirAll]
  by_cases hw : f.writeFails
  · simp [Write, hc, hr, hm, hmar, hw, file_mkdirAll]
  by_cases hrn : f.renameFails
  · simp only [Write, hc, hr, hm, hmar, hw, hrn, if_false, if_true, Bool.false_eq_true,
      ite_false, ite_true]
    rw [addExt_tmp]
    rw [file_setFile_ne _ _ _ _ (by
      apply pair_concat_ne
      exact append_left_ne r ".json" ".json.tmp" (by decide))]
    · exact file_mkdirAll ..
  · exfalso
    simp [Write, hc, hr, hm, hmar, hw, hrn] at h

/-- Witness for C2: a rename failure on a store that already holds the
record leaves the old content of the final file in place. -/
theorem write_error_leaves_final_file_witness :
    (Write ⟨false, false, false, true⟩ oneRecordStore ["db"] "users" "zoro" zoroUser).1 =
      .error .renameFault ∧
    (Write ⟨false, false, false, true⟩ oneRecordStore ["db"] "users" "zoro" zoroUser).2.file
      ["db", "users", "zoro.json"] = some "\"z\"\n" := by
  constructor
  · rfl
  · have h := write_error_leaves_final_file ⟨false, false, false, true⟩ oneRecordStore
      ["db"] "users" "zoro" zoroUser .renameFault rfl
    simpa using h

/-- C9: a successful `Write(c, r, v)` stores at `root/c/r.json` exactly
the tab-indented pretty-printed JSON encoding of `v`
(`json.MarshalIndent(v, "", "\t")`) followed by a single newline byte. -/
theorem write_stores_pretty_json (f : Faults) (fs : FS) (root : Path)
    (c r : String) (v : Json)
    (h : (Write f fs root c r v).1 = .ok ()) :
    (Write f fs root c r v).2.file (root ++ [c, r ++ ".json"]) =
      some (marshalIndent v ++ "\n") := by
  by_cases hc : c = ""
  · exfalso; simp [Write, hc] at h
  by_cases hr : r = ""
  · exfalso; simp [Write, hc, hr] at h
  by_cases hm : f.mkdirFails
  · exfalso; simp [Write, hc, hr, hm] at h
  by_cases hmar : f.marshalFails
  · exfalso; simp [Write, hc, hr, hm, hmar] at h
  by_cases hw : f.writeFails
  · exfalso; simp [Write, hc, hr, hm, hmar, hw] at h
  by_cases hrn : f.renameFails
  · exfalso; simp [Write, hc, hr, hm, hmar, hw, hrn] at h
  · simp only [Write, hc, hr, hm, hmar, hw, hrn, if_false, if_true, Bool.false_eq_true,
      ite_false, ite_true]
    have := file_setFile_self
      (((fs.mkdirAll (root ++ [c])).setFile
          (addExt (root ++ [c] ++ [r ++ ".json"]) ".tmp") (marshalIndent v ++ "\n")).removeFile
        (addExt (root ++ [c] ++ [r ++ ".json"]) ".tmp"))
      (root ++ [c] ++ [r ++ ".json"]) (marshalIndent v ++ "\n")
    simpa using this

/-- Witness for C9 at a concrete input: writing the reference payload to
`users/zoro` on a fresh store puts the tab-indented JSON plus newline at
`db/users/zoro.json`. -/
theorem write_stores_pretty_json_witness :
    (Write noFaults emptyStore ["db"] "users" "zoro" zoroUser).2.file
        ["db", "users", "zoro.json"] =
      some "\x7b\n\t\"Name\": \"Zoro\",\n\t\"Age\": 23\n\x7d\n" := by
  have h := write_stores_pretty_json noFaults emptyStore ["db"] "users" "zoro" zoroUser rfl
  simpa using h

/-- C10: a successful `Write(c, r, v)` changes the content of no final
path other than `root/c/r.json`: every path different from the final file
and from the transient temp file `root/c/r.json.tmp` keeps exactly its
prior content, and the temp file itself is gone once the call returns. -/
theorem write_success_frame (f : Faults) (fs : FS) (root : Path)
    (c r : String) (v : Json) (p : Path)
    (h : (Write f fs root c r v).1 = .ok ())
    (hp1 : p ≠ root ++ [c, r ++ ".json"])
    (hp2 : p ≠ root ++ [c, r ++ ".json.tmp"]) :
    (Write f fs root c r v).2.file p = fs.file p ∧
    (Write f fs root c r v).2.file (root ++ [c, r ++ ".json.tmp"]) = none := by
  by_cases hc : c = ""
  · exfalso; simp [Write, hc] at h
  by_cases hr : r = ""
  · exfalso; simp [Write, hc, hr] at h
  by_cases hm : f.mkdirFails
  · exfalso; simp [Write, hc, hr, hm] at h
  by_cases hmar : f.marshalFails
  · exfalso; simp [Write, hc, hr, hm, hmar] at h
  by_cases hw : f.writeFails
  · exfalso; simp [Write, hc, hr, hm, hmar, hw] at h
  by_cases hrn : f.renameFails
  · exfalso; simp [Write, hc, hr, hm, hmar, hw, hrn] at h
  simp only [Write, hc, hr, hm, hmar, hw, hrn, if_false, if_true, Bool.false_eq_true,
    ite_false, ite_true]
  rw [addExt_tmp]
  have hfnl : root ++ [c] ++ [r ++ ".json"] = root ++ [c, r ++ ".json"] := by simp
  rw [hfnl]
  constructor
  · rw [file_setFile_ne _ _ _ _ hp1, file_removeFile_ne _ _ _ hp2,
      file_setFile_ne _ _ _ _ hp2, file_mkdirAll]
  · rw [file_setFile_ne _ _ _ _ (by
      apply pair_concat_ne
      exact append_left_ne r ".json.tmp" ".json" (by decide)),
      file_removeFile_self]

/-- Witness for C10: writing `users/zoro` on a two-collection store leaves
the sibling record `users/benn.json` and the record `sites/home.json` of
the other collection untouched, and no temp file behind. -/
theorem write_success_frame_witness :
    (Write noFaults twoCollectionStore ["db"] "users" "zoro" zoroUser).2.file
      ["db", "users", "benn.json"] = some "\"b\"\n" ∧
    (Write noFaults twoCollectionStore ["db"] "users" "zoro" zoroUser).2.file
      ["db", "sites", "home.json"] = some "\"h\"\n" ∧
    (Write noFaults twoCollectionStore ["db"] "users" "zoro" zoroUser).2.file
      ["db", "users", "zoro.json.tmp"] = none := by
  have h1 := write_success_frame noFaults twoCollectionStore ["db"] "users" "zoro" zoroUser
    ["db", "users", "benn.json"] rfl (by decide) (by decide)
  have h2 := write_success_frame noFaults twoCollectionStore ["db"] "users" "zoro" zoroUser
    ["db", "sites", "home.json"] rfl (by decide) (by decide)
  exact ⟨by simpa using h1.1, by simpa using h2.1, by simpa using h1.2⟩

/-- C7: with non-empty names, when neither `root/c/r` nor `root/c/r.json`
exists (as file or directory), `Read(c, r)` fails with the not-found
error — and, `Read` returning only an error, no value is produced. -/
theorem read_missing_fails_notFound (fs : FS) (root : Path) (c r : String)
    (hc : c ≠ "") (hr : r ≠ "")
    (h1 : fs.isDir (root ++ [c, r]) = false)
    (h2 : fs.file (root ++ [c, r]) = none)
    (h3 : fs.isDir (root ++ [c, r ++ ".json"]) = false)
    (h4 : fs.file (root ++ [c, r ++ ".json"]) = none) :
    Read fs root c r = .error .notFound := by
  simp [Read, hc, hr, stat, osStat, addExt_record, h1, h2, h3, h4]

/-- Witness for C7: reading `users/missing` on a freshly opened store. -/
theorem read_missing_fails_notFound_witness :
    Read emptyStore ["db"] "users" "missing" = .error .notFound :=
  read_missing_fails_notFound emptyStore ["db"] "users" "missing"
    (by decide) (by decide) rfl rfl rfl rfl

/-- C6: with non-empty names, after `Delete(c, r)` succeeds, `Read(c, r)`
fails with the not-found error. The hypotheses exclude directories sitting
at the record paths `root/c/r` and `root/c/r.json`, placements no driver
operation ever creates. -/
theorem delete_then_read_notFound (fs : FS) (root : Path) (c r : String)
    (hc : c ≠ "") (hr : r ≠ "")
    (h1 : fs.isDir (root ++ [c, r]) = false)
    (h2 : fs.isDir (root ++ [c, r ++ ".json"]) = false)
    (hok : (Delete fs root c r).1 = .ok ()) :
    Read (Delete fs root c r).2 root c r = .error .notFound := by
  have hfilter : joinPath [c, r] = [c, r] := by simp [joinPath, hc, hr]
  have hjne : r ≠ r ++ ".json" := fun he => append_ne_self r ".json" (by decide) he.symm
  have hnotunder : isUnder (root ++ [c, r]) (root ++ [c, r ++ ".json"]) = false := by
    have := isUnder_concat_ne (root ++ [c]) r (r ++ ".json") (fun he => hjne he.symm)
    simpa using this
  cases hbare : fs.file (root ++ [c, r]) with
  | some b =>
    have hstat : stat fs (root ++ [c, r]) = .ok .file := by
      simp [stat, osStat, h1, hbare]
    have hdel : (Delete fs root c r).2 = fs.removeAll (root ++ [c, r ++ ".json"]) := by
      simp [Delete, hfilter, hstat, addExt_record]
    rw [hdel]
    have e1 : (fs.removeAll (root ++ [c, r ++ ".json"])).isDir (root ++ [c, r]) = false := by
      rw [isDir_removeAll, hnotunder]
      simpa using h1
    have e2 : (fs.removeAll (root ++ [c, r ++ ".json"])).file (root ++ [c, r]) = some b := by
      rw [file_removeAll, hnotunder]
      simpa using hbare
    have e3 : (fs.removeAll (root ++ [c, r ++ ".json"])).isDir
        (root ++ [c, r ++ ".json"]) = false := by
      rw [isDir_removeAll, isUnder_refl]
      simp
    have e4 : (fs.removeAll (root ++ [c, r ++ ".json"])).file
        (root ++ [c, r ++ ".json"]) = none := by
      rw [file_removeAll, isUnder_refl]
      simp
    simp [Read, hc, hr, stat, osStat, osReadFile, addExt_record, e1, e2, e3, e4]
  | none =>
    cases hjson : fs.file (root ++ [c, r ++ ".json"]) with
    | none =>
      exfalso
      have hstat : stat fs (root ++ [c, r]) = .error .notFound := by
        simp [stat, osStat, addExt_record, h1, h2, hbare, hjson]
      simp [Delete, hfilter, hstat] at hok
    | some b =>
      have hstat : stat fs (root ++ [c, r]) = .ok .file := by
        simp [stat, osStat, addExt_record, h1, h2, hbare, hjson]
      have hdel : (Delete fs root c r).2 = fs.removeAll (root ++ [c, r ++ ".json"]) := by
        simp [Delete, hfilter, hstat, addExt_record]
      rw [hdel]
      have e1 : (fs.removeAll (root ++ [c, r ++ ".json"])).isDir (root ++ [c, r]) = false := by
        rw [isDir_removeAll, hnotunder]
        simpa using h1
      have e2 : (fs.removeAll (root ++ [c, r ++ ".json"])).file (root ++ [c, r]) = none := by
        rw [file_removeAll, hnotunder]
        simpa using hbare
      have e3 : (fs.removeAll (root ++ [c, r ++ ".json"])).isDir
          (root ++ [c, r ++ ".json"]) = false := by
        rw [isDir_removeAll, isUnder_refl]
        simp
      have e4 : (fs.removeAll (root ++ [c, r ++ ".json"])).file
          (root ++ [c, r ++ ".json"]) = none := by
        rw [file_removeAll, isUnder_refl]
        simp
      simp [Read, hc, hr, stat, osStat, osReadFile, addExt_record, e1, e2, e3, e4]

/-- Witness for C6: deleting the record `users/zoro` of the one-record
store succeeds and makes the subsequent read fail with not-found. -/
theorem delete_then_read_notFound_witness :
    Read (Delete oneRecordStore ["db"] "users" "zoro").2 ["db"] "users" "zoro" =
      .error .notFound :=
  delete_then_read_notFound oneRecordStore ["db"] "users" "zoro"
    (by decide) (by decide) rfl rfl rfl

/-- C5: `Delete(c, "")` with an existing collection directory succeeds,
removes the entire directory `root/c` and everything inside it (no file
or directory under it survives), and a subsequent `ReadAll(c)` fails with
the not-found error. -/
theorem delete_collection_then_readAll_notFound (fs : FS) (root : Path) (c : String)
    (hc : c ≠ "") (hdir : fs.isDir (root ++ [c]) = true) :
    (Delete fs root c "").1 = .ok () ∧
    (∀ p, isUnder p (root ++ [c]) = true →
      (Delete fs root c "").2.file p = none ∧ (Delete fs root c "").2.isDir p = false) ∧
    ReadAll (Delete fs root c "").2 root c = .error .notFound := by
  have hfilter : joinPath [c, ""] = [c] := by simp [joinPath, hc]
  have hstat : stat fs (root ++ [c]) = .ok .dir := by simp [stat, osStat, hdir]
  have hdel : Delete fs root c "" = (.ok (), fs.removeAll (root ++ [c])) := by
    simp [Delete, hfilter, hstat]
  rw [hdel]
  refine ⟨rfl, ?_, ?_⟩
  · intro p hp
    rw [file_removeAll, isDir_removeAll, if_pos hp, if_pos hp]
    exact ⟨rfl, rfl⟩
  · have e1 : (fs.removeAll (root ++ [c])).isDir (root ++ [c]) = false := by
      rw [isDir_removeAll, isUnder_refl]
      simp
    have e2 : (fs.removeAll (root ++ [c])).file (root ++ [c]) = none := by
      rw [file_removeAll, isUnder_refl]
      simp
    have hext : addExt (root ++ [c]) ".json" = root ++ [c ++ ".json"] :=
      addExt_concat root c ".json"
    have hosr : osStat (fs.removeAll (root ++ [c])) (root ++ [c]) = .notExist := by
      simp [osStat, e1, e2]
    cases hq : osStat (fs.removeAll (root ++ [c])) (root ++ [c ++ ".json"]) with
    | dir =>
      have hstat2 : stat (fs.removeAll (root ++ [c])) (root ++ [c]) = .ok .dir := by
        simp [stat, hosr, hext, hq]
      simp [ReadAll, hc, hstat2, osReadDir, e1, e2]
    | file =>
      have hstat2 : stat (fs.removeAll (root ++ [c])) (root ++ [c]) = .ok .file := by
        simp [stat, hosr, hext, hq]
      simp [ReadAll, hc, hstat2, osReadDir, e1, e2]
    | notExist =>
      have hstat2 : stat (fs.removeAll (root ++ [c])) (root ++ [c]) = .error .notFound := by
        simp [stat, hosr, hext, hq]
      simp [ReadAll, hc, hstat2]

/-- Witness for C5: deleting the `users` collection of the one-record
store wipes the record and directory, and `ReadAll` then fails. -/
theorem delete_collection_then_readAll_notFound_witness :
    (Delete oneRecordStore ["db"] "users" "").1 = .ok () ∧
    (Delete oneRecordStore ["db"] "users" "").2.file ["db", "users", "zoro.json"] = none ∧
    (Delete oneRecordStore ["db"] "users" "").2.isDir ["db", "users"] = false ∧
    ReadAll (Delete oneRecordStore ["db"] "users" "").2 ["db"] "users" =
      .error .notFound := by
  have h := delete_collection_then_readAll_notFound oneRecordStore ["db"] "users"
    (by decide) rfl
  refine ⟨h.1, ?_, ?_, h.2.2⟩
  · exact (h.2.1 ["db", "users", "zoro.json"] (by decide)).1
  · exact (h.2.1 ["db", "users"] (by decide)).2

/-- ReadAll's per-entry loop succeeds and returns each entry's content
when every listed entry is a regular file. -/
theorem readFiles_ok (fs : FS) (dir : Path) (names : List String)
    (h : ∀ n ∈ names, fs.isDir (dir ++ [n]) = false ∧ (fs.file (dir ++ [n])).isSome = true) :
    readFiles fs dir names = .ok (names.map (fun n => (fs.file (dir ++ [n])).getD "")) := by
  induction names with
  | nil => rfl
  | cons n ns ih =>
    obtain ⟨hd, hs⟩ := h n (List.mem_cons_self _ _)
    obtain ⟨b, hb⟩ := Option.isSome_iff_exists.mp hs
    have ihh := ih (fun m hm => h m (List.mem_cons_of_mem _ hm))
    simp [readFiles, osReadFile, hd, hb, ihh]

/-- C8: `ReadAll(c)` with non-empty `c` fails with the not-found error
when neither a directory nor a file exists at `root/c`; when the
collection directory exists and its entries are all regular files (as
every state the driver itself produces has it), it returns the raw
serialized bytes of each listed entry, so the content of every file in
the directory is in the returned sequence. -/
theorem readAll_spec (fs : FS) (root : Path) (c : String) (hc : c ≠ "") :
    (fs.isDir (root ++ [c]) = false → fs.file (root ++ [c]) = none →
      ReadAll fs root c = .error .notFound) ∧
    (fs.isDir (root ++ [c]) = true →
      (∀ n ∈ readDirNames fs (root ++ [c]),
        fs.isDir (root ++ [c] ++ [n]) = false ∧
          (fs.file (root ++ [c] ++ [n])).isSome = true) →
      ReadAll fs root c =
        .ok ((readDirNames fs (root ++ [c])).map
          (fun n => (fs.file (root ++ [c] ++ [n])).getD "")) ∧
      (∀ n b, fs.file (root ++ [c] ++ [n]) = some b →
        b ∈ (readDirNames fs (root ++ [c])).map
          (fun n => (fs.file (root ++ [c] ++ [n])).getD ""))) := by
  have hext : addExt (root ++ [c]) ".json" = root ++ [c ++ ".json"] :=
    addExt_concat root c ".json"
  constructor
  · intro e1 e2
    have hosr : osStat fs (root ++ [c]) = .notExist := by simp [osStat, e1, e2]
    cases hq : osStat fs (root ++ [c ++ ".json"]) with
    | dir =>
      have hstat2 : stat fs (root ++ [c]) = .ok .dir := by simp [stat, hosr, hext, hq]
      simp [ReadAll, hc, hstat2, osReadDir, e1, e2]
    | file =>
      have hstat2 : stat fs (root ++ [c]) = .ok .file := by simp [stat, hosr, hext, hq]
      simp [ReadAll, hc, hstat2, osReadDir, e1, e2]
    | notExist =>
      have hstat2 : stat fs (root ++ [c]) = .error .notFound := by
        simp [stat, hosr, hext, hq]
      simp [ReadAll, hc, hstat2]
  · intro hdir hentries
    have hread : ReadAll fs root c =
        .ok ((readDirNames fs (root ++ [c])).map
          (fun n => (fs.file (root ++ [c] ++ [n])).getD "")) := by
      have hstat : stat fs (root ++ [c]) = .ok .dir := by simp [stat, osStat, hdir]
      have hrf := readFiles_ok fs (root ++ [c]) (readDirNames fs (root ++ [c])) hentries
      simp [ReadAll, hc, hstat, osReadDir, hdir, hrf]
    refine ⟨hread, ?_⟩
    intro n b hb
    have hmem : (root ++ [c] ++ [n], b) ∈ fs.files := findFile_mem _ _ _ hb
    have hn : n ∈ readDirNames fs (root ++ [c]) := by
      apply List.mem_append_left
      exact List.mem_filterMap.mpr ⟨(root ++ [c] ++ [n], b), hmem, childName_concat _ _⟩
    exact List.mem_map.mpr ⟨n, hn, by rw [hb]; rfl⟩

/-- Witness for C8: on the two-collection store `ReadAll("users")`
returns both records' bytes and finds `zoro.json`'s content; on the
one-record store `ReadAll("sites")` fails with not-found. -/
theorem readAll_spec_witness :
    ReadAll twoCollectionStore ["db"] "users" = .ok ["\"z\"\n", "\"b\"\n"] ∧
    "\"z\"\n" ∈ ["\"z\"\n", "\"b\"\n"] ∧
    ReadAll oneRecordStore ["db"] "sites" = .error .notFound := by
  have h1 := (readAll_spec twoCollectionStore ["db"] "users" (by decide)).2 rfl
    (by decide)
  have h2 := (readAll_spec oneRecordStore ["db"] "sites" (by decide)).1 rfl rfl
  refine ⟨?_, ?_, h2⟩
  · have h3 := h1.1
    simp only [h3]
    rfl
  · exact h1.2 "zoro.json" "\"z\"\n" rfl

end AsuraDb
